import Mathlib

/-!
# Verification of the minda game-server session-layer model

Shallow embedding of `src/game-server/src/model/gameserver.rs`: the
`Invite` token, the `EndedCause` classifier with its hand-written
serializer/deserializer, the internally tagged (`tag = "type"`) `Command`
and `Event` message enums, `parse_command`, `Event::game_to_started` and
`GameServer::from_server`.

JSON is modelled as an inductive value type; serde's derived
internally-tagged (de)serialization is embedded as explicit
encode/decode functions on that type, following serde's documented
semantics: the discriminant is the string field named `type`, variant
fields sit flattened at the top level of the same object, unknown extra
fields are ignored on decode, and missing or ill-shaped required fields
are errors.

Field payload types (`UserId`, `AxialCord`, `Stone`, `Room`, `RoomConf`,
the `Game` engine view and the live `Server` state) live in crates or
modules outside the given source; they are modelled from the spec where
they matter, each with a doc comment saying so.
-/

namespace Minda

/-- JSON values: the wire format of the protocol. Numbers are modelled as
integers (all numeric fields of the protocol are integral). -/
inductive Json where
  | null
  | bool (b : Bool)
  | num (n : Int)
  | str (s : String)
  | arr (xs : List Json)
  | obj (fs : List (String × Json))

/-- The field list of a JSON object (empty for non-objects). -/
def Json.fields : Json → List (String × Json)
  | .obj fs => fs
  | _ => []

/-- View a JSON value as a string. -/
def Json.asStr : Json → Option String
  | .str s => some s
  | _ => none

/-- View a JSON value as an integer. -/
def Json.asInt : Json → Option Int
  | .num n => some n
  | _ => none

/-- Decode errors carry a human-readable message, as serde errors do. -/
abbrev Dec (α : Type) := Except String α

/-- Look up a required object field, failing with a serde-style message. -/
def reqField (fs : List (String × Json)) (k : String) : Dec Json :=
  match fs.lookup k with
  | some v => .ok v
  | none => .error ("missing field " ++ k)

/-- Decode a JSON string. -/
def decStr (j : Json) : Dec String :=
  match j with
  | .str s => .ok s
  | _ => .error "expected a string"

/-- Decode a JSON integer. -/
def decInt (j : Json) : Dec Int :=
  match j with
  | .num n => .ok n
  | _ => .error "expected an integer"

/-- Decode every element of a JSON array element list. -/
def decAll (d : Json → Dec α) : List Json → Dec (List α)
  | [] => .ok []
  | x :: xs => do
    let a ← d x
    let as ← decAll d xs
    .ok (a :: as)

/-- Decode a JSON array with an element decoder. -/
def decArr (d : Json → Dec α) (j : Json) : Dec (List α) :=
  match j with
  | .arr xs => decAll d xs
  | _ => .error "expected an array"

/-- Modelled from the spec: `UserId` (defined in an out-of-scope module of
the repository) is an opaque user identifier; modelled as a string. -/
abbrev UserId := String

/-- Modelled from the spec: `AxialCord` (board geometry, out-of-scope
module) is an axial board coordinate with two integer components; it
serializes as a JSON object with fields `x` and `y`. -/
structure AxialCord where
  x : Int
  y : Int
deriving Repr, DecidableEq

/-- Serialize an `AxialCord` the way serde derives it for a plain struct. -/
def encodeAxialCord (a : AxialCord) : Json :=
  .obj [("x", .num a.x), ("y", .num a.y)]

/-- Deserialize an `AxialCord`. -/
def decodeAxialCord (j : Json) : Dec AxialCord := do
  let x ← decInt (← reqField j.fields "x")
  let y ← decInt (← reqField j.fields "y")
  .ok ⟨x, y⟩

/-- Modelled from the spec: `Stone` (the game crate, out of scope) is the
content of one board cell: empty, or a stone of one of the two colors.
A plain unit-variant enum under derived serde serializes as the bare
string of the variant name. -/
inductive Stone where
  | blank
  | black
  | white
deriving Repr, DecidableEq

/-- Serialize a `Stone` as its variant-name string. -/
def encodeStone : Stone → Json
  | .blank => .str "Blank"
  | .black => .str "Black"
  | .white => .str "White"

/-- Deserialize a `Stone` from its variant-name string. -/
def decodeStone (j : Json) : Dec Stone :=
  match j with
  | .str "Blank" => .ok .blank
  | .str "Black" => .ok .black
  | .str "White" => .ok .white
  | _ => .error "unknown stone variant"

/-- Modelled from the spec: `RoomConf` (out-of-scope `model` module) is the
room configuration record; modelled with a room title and a player cap,
serialized as a plain JSON struct. -/
structure RoomConf where
  name : String
  max_users : Int
deriving Repr, DecidableEq

/-- Serialize a `RoomConf` as serde derives it for a plain struct. -/
def encodeRoomConf (c : RoomConf) : Json :=
  .obj [("name", .str c.name), ("max_users", .num c.max_users)]

/-- Deserialize a `RoomConf`. -/
def decodeRoomConf (j : Json) : Dec RoomConf := do
  let n ← decStr (← reqField j.fields "name")
  let m ← decInt (← reqField j.fields "max_users")
  .ok ⟨n, m⟩

/-- Modelled from the spec: `Room` (external entity, referenced only) is
the external summary of a live room: its identifier, its connected users
and its configuration, serialized as a plain JSON struct. -/
structure Room where
  id : String
  users : List UserId
  conf : RoomConf
deriving Repr, DecidableEq

/-- Serialize a `Room` summary. -/
def encodeRoom (r : Room) : Json :=
  .obj [ ("id", .str r.id)
       , ("users", .arr (r.users.map Json.str))
       , ("conf", encodeRoomConf r.conf) ]

/-- Deserialize a `Room` summary. -/
def decodeRoom (j : Json) : Dec Room := do
  let i ← decStr (← reqField j.fields "id")
  let us ← decArr decStr (← reqField j.fields "users")
  let c ← decodeRoomConf (← reqField j.fields "conf")
  .ok ⟨i, us, c⟩

/-- The cause a match ended, from the source (`enum EndedCause`). -/
inductive EndedCause where
  | Timeout
  | Gg
  | LostStones
deriving Repr, DecidableEq

/-- The hand-written `Serialize` impl for `EndedCause`: a bare string. -/
def encodeEndedCause (c : EndedCause) : Json :=
  .str (match c with
    | .Timeout => "timeout"
    | .Gg => "gg"
    | .LostStones => "lost all stones")

/-- The hand-written `Deserialize` impl for `EndedCause`: first expect a
string, then match it against the three wire strings, anything else is a
custom error. -/
def decodeEndedCause (j : Json) : Dec EndedCause := do
  let s ← decStr j
  match s with
  | "timeout" => .ok .Timeout
  | "gg" => .ok .Gg
  | "lost all stones" => .ok .LostStones
  | _ => .error "Invalid ended cause"

/-- The tag of an internally tagged (`tag = "type"`) JSON message: the
value of the string field named `type`, when the input is an object and
that field is present and is a string. -/
def jsonTag (j : Json) : Option String :=
  match j.fields.lookup "type" with
  | some (.str t) => some t
  | _ => none

/-- Read a required field with a field decoder and continue: the basic
step of a serde derived struct-variant deserializer. A missing field or
a failing field decoder aborts with the error. -/
def withField {α β : Type} (fs : List (String × Json)) (k : String)
    (d : Json → Dec α) (g : α → Dec β) : Dec β :=
  Except.bind (reqField fs k) (fun jf => Except.bind (d jf) g)

/-- Client-to-server messages, from the source (`enum Command`).
The `Move` variant's second field is named `end` in the source; `end` is
a Lean keyword, so the binder is spelled `stop` here (the wire field name
stays `"end"`). -/
inductive Command where
  | Connect (invite : String)
  | Move (start stop dir : AxialCord)
  | Chat (content : String)
  | Conf (conf : RoomConf)
  | Start
  | Ban (user : UserId)
  | Gg
deriving Repr, DecidableEq

/-- Serde's derived internally tagged serialization of `Command`
(`#[serde(tag = "type")]` with the per-variant renames): an object whose
first field is the `type` tag, with the variant's fields flattened after
it in declaration order. -/
def encodeCommand : Command → Json
  | .Connect invite =>
      .obj [("type", .str "connect"), ("invite", .str invite)]
  | .Move s e d =>
      .obj [ ("type", .str "move"), ("start", encodeAxialCord s)
           , ("end", encodeAxialCord e), ("dir", encodeAxialCord d) ]
  | .Chat content =>
      .obj [("type", .str "chat"), ("content", .str content)]
  | .Conf conf =>
      .obj [("type", .str "conf"), ("conf", encodeRoomConf conf)]
  | .Start => .obj [("type", .str "start")]
  | .Ban user => .obj [("type", .str "ban"), ("user", .str user)]
  | .Gg => .obj [("type", .str "gg")]

/-- Serde's derived internally tagged deserialization of `Command`: read
the `type` tag, dispatch on it, then read the selected variant's required
fields from the same object; unknown extra fields are ignored, a missing
or unknown tag and missing or ill-shaped required fields are errors. -/
def decodeCommand (j : Json) : Dec Command :=
  match jsonTag j with
  | none => .error "missing type tag"
  | some "connect" =>
      withField j.fields "invite" decStr (fun invite =>
        .ok (.Connect invite))
  | some "move" =>
      withField j.fields "start" decodeAxialCord (fun s =>
        withField j.fields "end" decodeAxialCord (fun e =>
          withField j.fields "dir" decodeAxialCord (fun d =>
            .ok (.Move s e d))))
  | some "chat" =>
      withField j.fields "content" decStr (fun content =>
        .ok (.Chat content))
  | some "conf" =>
      withField j.fields "conf" decodeRoomConf (fun conf =>
        .ok (.Conf conf))
  | some "start" => .ok .Start
  | some "ban" =>
      withField j.fields "user" decStr (fun user => .ok (.Ban user))
  | some "gg" => .ok .Gg
  | some _ => .error "unknown variant of enum Command"

/-- The source's `parse_command`: `serde_json::from_str` at type `Command`.
The byte-level JSON text parser is the external `serde_json` crate; the
embedding works at the level of parsed JSON values, so `parse_command` is
the tag-driven decode of a JSON value. -/
def parse_command (j : Json) : Dec Command :=
  decodeCommand j

/-- Server-to-client messages, from the source (`enum Event`). -/
inductive Event where
  | Connected (room : Room)
  | Started (board : List (List Stone)) (black : UserId) (white : UserId)
      (turn : String)
  | Entered (user : UserId)
  | Error (message : String)
  | Moved (player : String) (start stop dir : AxialCord)
  | Chated (user : UserId) (content : String)
  | Confed (conf : RoomConf)
  | Left (user : UserId)
  | Ended (loser : UserId) (color : String) (cause : EndedCause)
  | Banned (user : UserId)
deriving Repr, DecidableEq

/-- Serialize the board grid: a JSON array of rows, each row an array of
stone cells. -/
def encodeBoard (b : List (List Stone)) : Json :=
  .arr (b.map (fun row => .arr (row.map encodeStone)))

/-- Deserialize the board grid. -/
def decodeBoard : Json → Dec (List (List Stone)) :=
  decArr (decArr decodeStone)

/-- Serde's derived internally tagged serialization of `Event`. -/
def encodeEvent : Event → Json
  | .Connected room =>
      .obj [("type", .str "connected"), ("room", encodeRoom room)]
  | .Started board black white turn =>
      .obj [ ("type", .str "started"), ("board", encodeBoard board)
           , ("black", .str black), ("white", .str white)
           , ("turn", .str turn) ]
  | .Entered user => .obj [("type", .str "entered"), ("user", .str user)]
  | .Error message =>
      .obj [("type", .str "error"), ("message", .str message)]
  | .Moved player s e d =>
      .obj [ ("type", .str "moved"), ("player", .str player)
           , ("start", encodeAxialCord s), ("end", encodeAxialCord e)
           , ("dir", encodeAxialCord d) ]
  | .Chated user content =>
      .obj [ ("type", .str "chated"), ("user", .str user)
           , ("content", .str content) ]
  | .Confed conf =>
      .obj [("type", .str "confed"), ("conf", encodeRoomConf conf)]
  | .Left user => .obj [("type", .str "left"), ("user", .str user)]
  | .Ended loser color cause =>
      .obj [ ("type", .str "ended"), ("loser", .str loser)
           , ("color", .str color), ("cause", encodeEndedCause cause) ]
  | .Banned user => .obj [("type", .str "banned"), ("user", .str user)]

/-- Serde's derived internally tagged deserialization of `Event`. -/
def decodeEvent (j : Json) : Dec Event :=
  match jsonTag j with
  | none => .error "missing type tag"
  | some "connected" =>
      withField j.fields "room" decodeRoom (fun room =>
        .ok (.Connected room))
  | some "started" =>
      withField j.fields "board" decodeBoard (fun board =>
        withField j.fields "black" decStr (fun black =>
          withField j.fields "white" decStr (fun white =>
            withField j.fields "turn" decStr (fun turn =>
              .ok (.Started board black white turn)))))
  | some "entered" =>
      withField j.fields "user" decStr (fun user => .ok (.Entered user))
  | some "error" =>
      withField j.fields "message" decStr (fun message =>
        .ok (.Error message))
  | some "moved" =>
      withField j.fields "player" decStr (fun player =>
        withField j.fields "start" decodeAxialCord (fun s =>
          withField j.fields "end" decodeAxialCord (fun e =>
            withField j.fields "dir" decodeAxialCord (fun d =>
              .ok (.Moved player s e d)))))
  | some "chated" =>
      withField j.fields "user" decStr (fun user =>
        withField j.fields "content" decStr (fun content =>
          .ok (.Chated user content)))
  | some "confed" =>
      withField j.fields "conf" decodeRoomConf (fun conf =>
        .ok (.Confed conf))
  | some "left" =>
      withField j.fields "user" decStr (fun user => .ok (.Left user))
  | some "ended" =>
      withField j.fields "loser" decStr (fun loser =>
        withField j.fields "color" decStr (fun color =>
          withField j.fields "cause" decodeEndedCause (fun cause =>
            .ok (.Ended loser color cause))))
  | some "banned" =>
      withField j.fields "user" decStr (fun user => .ok (.Banned user))
  | some _ => .error "unknown variant of enum Event"

/-- The `type` tag string of each `Command` variant, per the serde
renames in the source. -/
def commandTag : Command → String
  | .Connect _ => "connect"
  | .Move _ _ _ => "move"
  | .Chat _ => "chat"
  | .Conf _ => "conf"
  | .Start => "start"
  | .Ban _ => "ban"
  | .Gg => "gg"

/-- The wire field names of each `Command` variant, in declaration
order. -/
def commandFieldNames : Command → List String
  | .Connect _ => ["invite"]
  | .Move _ _ _ => ["start", "end", "dir"]
  | .Chat _ => ["content"]
  | .Conf _ => ["conf"]
  | .Start => []
  | .Ban _ => ["user"]
  | .Gg => []

/-- The `type` tag string of each `Event` variant, per the serde renames
in the source. -/
def eventTag : Event → String
  | .Connected _ => "connected"
  | .Started _ _ _ _ => "started"
  | .Entered _ => "entered"
  | .Error _ => "error"
  | .Moved _ _ _ _ => "moved"
  | .Chated _ _ => "chated"
  | .Confed _ => "confed"
  | .Left _ => "left"
  | .Ended _ _ _ => "ended"
  | .Banned _ => "banned"

/-- The wire field names of each `Event` variant, in declaration order. -/
def eventFieldNames : Event → List String
  | .Connected _ => ["room"]
  | .Started _ _ _ _ => ["board", "black", "white", "turn"]
  | .Entered _ => ["user"]
  | .Error _ => ["message"]
  | .Moved _ _ _ _ => ["player", "start", "end", "dir"]
  | .Chated _ _ => ["user", "content"]
  | .Confed _ => ["conf"]
  | .Left _ => ["user"]
  | .Ended _ _ _ => ["loser", "color", "cause"]
  | .Banned _ => ["user"]

/-- The seven `Command` tag strings. -/
def commandTags : List String :=
  ["connect", "move", "chat", "conf", "start", "ban", "gg"]

/-- Whether a decode result is a success. -/
def decIsOk : Dec α → Bool
  | .ok _ => true
  | .error _ => false

/-- Whether a required field is present and decodes with the given field
decoder. -/
def reqFieldOk (fs : List (String × Json)) (k : String)
    (d : Json → Dec α) : Bool :=
  decIsOk (Except.bind (reqField fs k) d)

/-- Whether the required fields of the `Command` variant selected by a
tag are all present and well-shaped in an object's field list. -/
def commandFieldsOk (fs : List (String × Json)) : String → Bool
  | "connect" => reqFieldOk fs "invite" decStr
  | "move" =>
      reqFieldOk fs "start" decodeAxialCord
        && reqFieldOk fs "end" decodeAxialCord
        && reqFieldOk fs "dir" decodeAxialCord
  | "chat" => reqFieldOk fs "content" decStr
  | "conf" => reqFieldOk fs "conf" decodeRoomConf
  | "start" => true
  | "ban" => reqFieldOk fs "user" decStr
  | "gg" => true
  | _ => false

/-- Modelled from the spec: the Game engine's turn color (the game crate
is out of scope); `to_string` gives its lowercase name. -/
inductive Color where
  | black
  | white
deriving Repr, DecidableEq

/-- The string form of a turn color (Rust `to_string`). -/
def Color.toStr : Color → String
  | .black => "black"
  | .white => "white"

/-- Modelled from the spec: the engine's board, exposing `raw()`, the raw
row-major grid of stone cells. -/
structure GameBoard where
  raw : List (List Stone)

/-- Modelled from the spec: the running Game engine instance, exposing
the board, the two assigned player identifiers and the color that
currently holds the move. -/
structure Game where
  board : GameBoard
  black : UserId
  white : UserId
  turn : Color

/-- The source's `Event::game_to_started`. -/
def Event.game_to_started (game : Game) : Event :=
  .Started game.board.raw game.black game.white game.turn.toStr

/-- Modelled from the spec: a live room held by the server (the Room
entity is external); its conversion to the external summary
(`to_model` in the source) is delegated to the Room itself and modelled
as returning the room's summary record. -/
structure LiveRoom where
  to_model : Room

/-- Modelled from the spec: the live server state (`server` module, out
of scope): its display name, its real address, and its keyed collection
of live rooms. -/
structure Server where
  name : String
  real_addr : String
  rooms : List (String × LiveRoom)

/-- The server-discovery snapshot, from the source (`struct GameServer`).
The `last_ping` timestamp is modelled as an integer instant. -/
structure GameServer where
  name : String
  addr : String
  rooms : List Room
  last_ping : Int

/-- The source's `GameServer::from_server`. `Utc::now()` is an effect of
the external chrono crate; the embedding passes the current instant
explicitly as `now`. -/
def GameServer.from_server (now : Int) (server : Server) : GameServer :=
  { name := server.name
  , addr := server.real_addr
  , rooms := server.rooms.map (fun p => p.2.to_model)
  , last_ping := now }

/-- The one-shot admission token, from the source (`struct Invite`). Its
constructor draws the key from `Uuid::new_v4()`, a random source in an
external crate; the embedding takes the drawn key as an argument. -/
structure Invite where
  key : String
  user_id : UserId
  room_id : String
deriving Repr, DecidableEq

/-- The error of a failed invite consumption. -/
inductive InviteError where
  | InvalidInvite
deriving Repr, DecidableEq

/-- Modelled from the spec: the Invite Registry's pending bindings, a
finite map from key to the bound `(user_id, room_id)`. -/
abbrev InviteRegistry := List (String × (UserId × String))

/-- Remove every binding of a key from the registry. -/
def removeKey (reg : InviteRegistry) (key : String) : InviteRegistry :=
  reg.filter (fun p => !(p.1 == key))

/-- Modelled from the spec: `consume(key)` atomically looks the key up
and, on success, removes it so it can never authorize again; an unknown
or already-consumed key fails with `InvalidInvite`. Each call is one
atomic step, so a concurrent pair of calls executes as one of the two
sequential orders. -/
def consume (reg : InviteRegistry) (key : String) :
    Except InviteError ((UserId × String) × InviteRegistry) :=
  match reg.lookup key with
  | some binding => .ok (binding, removeKey reg key)
  | none => .error .InvalidInvite

/-- Decoding a mapped list element-wise inverts the element encoder. -/
theorem decAll_map_ok {α : Type} (d : Json → Dec α) (e : α → Json)
    (h : ∀ a, d (e a) = .ok a) (xs : List α) :
    decAll d (xs.map e) = .ok xs := by
  induction xs with
  | nil => rfl
  | cons a as ih =>
    show Except.bind (d (e a)) _ = _
    rw [h a]
    show Except.bind (decAll d (as.map e)) _ = _
    rw [ih]
    rfl

/-- The board grid codec round-trips. -/
theorem decodeBoard_encodeBoard (b : List (List Stone)) :
    decodeBoard (encodeBoard b) = .ok b := by
  show decAll (decArr decodeStone)
      (b.map (fun row => Json.arr (row.map encodeStone))) = .ok b
  exact decAll_map_ok _ _
    (fun row => decAll_map_ok _ _ (fun s => by cases s <;> rfl) row) b

/-- The `Room` summary codec round-trips. -/
theorem decodeRoom_encodeRoom (r : Room) :
    decodeRoom (encodeRoom r) = .ok r := by
  show Except.bind (decAll decStr (r.users.map Json.str)) _ = _
  rw [decAll_map_ok decStr Json.str (fun s => rfl) r.users]
  rfl

/-- Unfolding of the `EndedCause` deserializer on a string input: a plain
four-way match on the wire string. -/
theorem decodeEndedCause_on_str (s : String) :
    decodeEndedCause (Json.str s) =
      (match s with
        | "timeout" => Except.ok EndedCause.Timeout
        | "gg" => Except.ok EndedCause.Gg
        | "lost all stones" => Except.ok EndedCause.LostStones
        | _ => Except.error "Invalid ended cause") := rfl

/-- When a required field is absent or its field decoder fails, the
`withField` step aborts with an error. -/
theorem withField_error {α β : Type} (fs : List (String × Json))
    (k : String) (d : Json → Dec α) (g : α → Dec β)
    (h : reqFieldOk fs k d = false) :
    ∃ e, withField fs k d g = .error e := by
  unfold reqFieldOk at h
  cases hr : reqField fs k with
  | error e => exact ⟨e, by unfold withField; rw [hr]; rfl⟩
  | ok v =>
    rw [hr] at h
    simp only [Except.bind] at h
    cases hd : d v with
    | error e =>
      refine ⟨e, ?_⟩
      unfold withField
      rw [hr]
      show Except.bind (d v) g = Except.error e
      rw [hd]
      rfl
    | ok a => rw [hd] at h; simp [decIsOk] at h

/-- When a required field is present and its field decoder succeeds, the
`withField` step continues with some decoded value. -/
theorem withField_ok {α β : Type} (fs : List (String × Json))
    (k : String) (d : Json → Dec α) (g : α → Dec β)
    (h : reqFieldOk fs k d = true) :
    ∃ a, withField fs k d g = g a := by
  unfold reqFieldOk at h
  cases hr : reqField fs k with
  | error e => rw [hr] at h; simp [Except.bind, decIsOk] at h
  | ok v =>
    rw [hr] at h
    simp only [Except.bind] at h
    cases hd : d v with
    | error e => rw [hd] at h; simp [decIsOk] at h
    | ok a =>
      refine ⟨a, ?_⟩
      unfold withField
      rw [hr]
      show Except.bind (d v) g = g a
      rw [hd]
      rfl

/-- Removing a key from the registry removes every binding of it. -/
theorem lookup_removeKey (reg : InviteRegistry) (key : String) :
    (removeKey reg key).lookup key = none := by
  induction reg with
  | nil => rfl
  | cons p tl ih =>
    obtain ⟨k, v⟩ := p
    by_cases hk : k = key
    · simpa [removeKey, List.filter_cons, hk] using ih
    · have hk2 : (key == k) = false := by
        simp only [beq_eq_false_iff_ne, ne_eq]
        exact fun h => hk h.symm
      simpa [removeKey, List.filter_cons, hk, List.lookup, hk2] using ih

/-- Claim C1: for every `Command` variant and every `Event` variant,
decoding the JSON produced by encoding the value yields the value back
(`decode(encode(v)) == v`). -/
theorem command_event_roundtrip :
    (∀ c : Command, decodeCommand (encodeCommand c) = .ok c)
    ∧ (∀ ev : Event, decodeEvent (encodeEvent ev) = .ok ev) := by
  constructor
  · intro c; cases c <;> rfl
  · intro ev
    cases ev with
    | Connected room =>
      show Except.bind (decodeRoom (encodeRoom room)) _ = _
      rw [decodeRoom_encodeRoom]
      rfl
    | Started board black white turn =>
      show Except.bind (decodeBoard (encodeBoard board)) _ = _
      rw [decodeBoard_encodeBoard]
      rfl
    | Ended loser color cause => cases cause <;> rfl
    | Entered user => rfl
    | Error message => rfl
    | Moved player s ee d => rfl
    | Chated user content => rfl
    | Confed conf => rfl
    | Left user => rfl
    | Banned user => rfl

/-- Claim C2: serializing an `EndedCause` produces exactly the bare JSON
string `timeout` for `Timeout`, `gg` for `Gg` and `lost all stones` for
`LostStones`, and every `EndedCause` value encodes to one of these three
bare strings, never a nested object or any other string. -/
theorem endedCause_encodes_to_bare_strings :
    encodeEndedCause .Timeout = Json.str "timeout"
    ∧ encodeEndedCause .Gg = Json.str "gg"
    ∧ encodeEndedCause .LostStones = Json.str "lost all stones"
    ∧ ∀ c : EndedCause, ∃ s, encodeEndedCause c = Json.str s
        ∧ (s = "timeout" ∨ s = "gg" ∨ s = "lost all stones") := by
  refine ⟨rfl, rfl, rfl, ?_⟩
  intro c
  cases c with
  | Timeout => exact ⟨"timeout", rfl, Or.inl rfl⟩
  | Gg => exact ⟨"gg", rfl, Or.inr (Or.inl rfl)⟩
  | LostStones => exact ⟨"lost all stones", rfl, Or.inr (Or.inr rfl)⟩

/-- Claim C3: decoding an `EndedCause` succeeds exactly on the three wire
strings, yielding the corresponding variant, and every other string
fails with the source's error, never silently coercing to a default
variant. -/
theorem endedCause_decode_exact :
    decodeEndedCause (Json.str "timeout") = .ok .Timeout
    ∧ decodeEndedCause (Json.str "gg") = .ok .Gg
    ∧ decodeEndedCause (Json.str "lost all stones") = .ok .LostStones
    ∧ ∀ s : String, s ≠ "timeout" → s ≠ "gg" → s ≠ "lost all stones" →
        decodeEndedCause (Json.str s) = .error "Invalid ended cause" := by
  refine ⟨rfl, rfl, rfl, ?_⟩
  intro s h1 h2 h3
  rw [decodeEndedCause_on_str]
  split
  · simp_all
  · simp_all
  · simp_all
  · rfl

/-- Witness for claim C3 at the concrete non-wire string `draw`. -/
theorem endedCause_decode_exact_witness :
    decodeEndedCause (Json.str "draw") = .error "Invalid ended cause" :=
  endedCause_decode_exact.2.2.2 "draw" (by decide) (by decide) (by decide)

/-- Claim C4: whenever the `type` discriminant of the input is missing or
not one of the seven `Command` variant tags, or a required field of the
selected variant is missing or of the wrong shape, `parse_command`
returns an error; it is a total function, so it never panics and it
never returns a default-constructed `Command`. -/
theorem parse_command_rejects_malformed (j : Json)
    (h : jsonTag j = none
      ∨ (∃ t, jsonTag j = some t ∧ t ∉ commandTags)
      ∨ (∃ t, jsonTag j = some t ∧ commandFieldsOk j.fields t = false)) :
    ∃ e, parse_command j = .error e := by
  rcases h with h | ⟨t, ht, hmem⟩ | ⟨t, ht, hbad⟩
  · exact ⟨"missing type tag", by unfold parse_command decodeCommand; rw [h]⟩
  · unfold parse_command decodeCommand
    rw [ht]
    simp only [commandTags, List.mem_cons, not_or] at hmem
    split <;> simp_all
  · unfold parse_command decodeCommand
    rw [ht]
    by_cases h1 : t = "connect"
    · subst h1
      simp only [commandFieldsOk] at hbad
      exact withField_error _ _ _ _ hbad
    by_cases h2 : t = "move"
    · subst h2
      simp only [commandFieldsOk] at hbad
      cases ha : reqFieldOk j.fields "start" decodeAxialCord with
      | false => exact withField_error _ _ _ _ ha
      | true =>
        obtain ⟨s, hs⟩ := withField_ok j.fields "start" decodeAxialCord _ ha
        rw [hs]
        cases hb : reqFieldOk j.fields "end" decodeAxialCord with
        | false => exact withField_error _ _ _ _ hb
        | true =>
          obtain ⟨e2, he⟩ := withField_ok j.fields "end" decodeAxialCord _ hb
          rw [he]
          have hc : reqFieldOk j.fields "dir" decodeAxialCord = false := by
            rw [ha, hb] at hbad
            simpa using hbad
          exact withField_error _ _ _ _ hc
    by_cases h3 : t = "chat"
    · subst h3
      simp only [commandFieldsOk] at hbad
      exact withField_error _ _ _ _ hbad
    by_cases h4 : t = "conf"
    · subst h4
      simp only [commandFieldsOk] at hbad
      exact withField_error _ _ _ _ hbad
    by_cases h5 : t = "start"
    · subst h5; simp [commandFieldsOk] at hbad
    by_cases h6 : t = "ban"
    · subst h6
      simp only [commandFieldsOk] at hbad
      exact withField_error _ _ _ _ hbad
    by_cases h7 : t = "gg"
    · subst h7; simp [commandFieldsOk] at hbad
    split <;> simp_all

/-- Witness for claim C4 at the concrete unknown discriminant
`teleport`. -/
theorem parse_command_rejects_malformed_witness :
    ∃ e, parse_command (Json.obj [("type", Json.str "teleport")])
      = .error e :=
  parse_command_rejects_malformed _
    (Or.inr (Or.inl ⟨"teleport", rfl, by decide⟩))

/-- Claim C5: every encoded `Command` and `Event` is a JSON object whose
leading field is the string field `type` holding the lowercase variant
tag (`commandTag` resp. `eventTag`, the serde renames of the source),
with exactly that variant's wire fields flattened after it at the top
level of the same object. -/
theorem wire_format_internally_tagged :
    (∀ c : Command, ∃ fs,
        encodeCommand c = Json.obj (("type", Json.str (commandTag c)) :: fs)
        ∧ fs.map Prod.fst = commandFieldNames c)
    ∧ (∀ ev : Event, ∃ fs,
        encodeEvent ev = Json.obj (("type", Json.str (eventTag ev)) :: fs)
        ∧ fs.map Prod.fst = eventFieldNames ev) := by
  constructor
  · intro c; cases c <;> exact ⟨_, rfl, rfl⟩
  · intro ev; cases ev <;> exact ⟨_, rfl, rfl⟩

/-- Claim C6: for every Game engine instance, `Event::game_to_started`
builds a `Started` event whose board is the engine's raw row-major grid,
whose black and white are the engine's assigned player identifiers, and
whose turn is the string form of the color that currently holds the
move. -/
theorem game_to_started_fields (g : Game) :
    Event.game_to_started g
      = Event.Started g.board.raw g.black g.white g.turn.toStr := rfl

/-- Claim C7: `GameServer::from_server` returns a snapshot whose rooms
are exactly the external summaries (`to_model`) of the server's current
rooms in order, whose name and addr are copied from the server, and
whose `last_ping` is the instant of the call; the embedding is a pure
function of the server state, so the call mutates nothing. -/
theorem from_server_snapshot_fields (now : Int) (s : Server) :
    (GameServer.from_server now s).rooms
        = s.rooms.map (fun p => p.2.to_model)
    ∧ (GameServer.from_server now s).name = s.name
    ∧ (GameServer.from_server now s).addr = s.real_addr
    ∧ (GameServer.from_server now s).last_ping = now :=
  ⟨rfl, rfl, rfl, rfl⟩

/-- Claim C9: for a registry holding an issued invite key, the first of
two consume attempts on that key (each call one atomic step, so a
concurrent pair executes in one of the two sequential orders) succeeds
with the bound user and room, the other attempt fails with
`InvalidInvite`, and every subsequent consume of that key fails and can
never succeed again. -/
theorem consume_single_use (reg : InviteRegistry) (key : String)
    (u : UserId) (r : String) (h : reg.lookup key = some (u, r)) :
    ∃ reg2, consume reg key = .ok ((u, r), reg2)
      ∧ consume reg2 key = .error .InvalidInvite
      ∧ ∀ v reg3, ¬ (consume reg2 key = .ok (v, reg3)) := by
  refine ⟨removeKey reg key, ?_, ?_, ?_⟩
  · unfold consume
    rw [h]
  · unfold consume
    rw [lookup_removeKey]
  · intro v reg3 hc
    unfold consume at hc
    rw [lookup_removeKey] at hc
    exact Except.noConfusion hc

/-- Witness for claim C9 at a concrete one-invite registry. -/
theorem consume_single_use_witness :
    ∃ reg2, consume [("k", ("u1", "r1"))] "k" = .ok (("u1", "r1"), reg2)
      ∧ consume reg2 "k" = .error .InvalidInvite
      ∧ ∀ v reg3, ¬ (consume reg2 "k" = .ok (v, reg3)) :=
  consume_single_use _ _ _ _ rfl

/-- Claim C10: a valid `Command` object carrying an additional
unrecognized top-level field still parses, returning the variant
selected by the `type` discriminant and silently ignoring the extra
field. -/
theorem parse_command_ignores_unknown_fields :
    parse_command (Json.obj [("type", Json.str "gg"), ("extra", Json.num 1)])
      = .ok Command.Gg := rfl

end Minda
